import Mathlib

/-!
Verification of the Sparkify ETL pipeline (etl.py) against its
natural-language specification.

The pipeline's pure transform logic is embedded as Lean functions:
calendar derivation (datetime.fromtimestamp plus the pandas accessors
hour, day, weekofyear, month, year, weekday), the per-file processing
functions process_song_file and process_log_file, and the batch driver
process_data.  The SQL statements live in sql_queries.py, which is not
part of the source tree; the per-table insert conflict policies and the
song_select lookup are therefore modelled from the specification, as
marked on each definition.
-/

namespace Sparkify

/-! ## Calendar arithmetic

Embedding of datetime.fromtimestamp(ts / 1000.0) at UTC together with
the calendar-field accessors used on line 61 of etl.py.  Timestamps are
epoch milliseconds (Int); Python floor division is Int.fdiv. -/

/-- Whole seconds of the epoch-millisecond timestamp. -/
def epochSec (ts : Int) : Int := ts.fdiv 1000

/-- Days since 1970-01-01 of the instant. -/
def epochDay (ts : Int) : Int := (epochSec ts).fdiv 86400

/-- Second within the day, in [0, 86400). -/
def secOfDay (ts : Int) : Int := (epochSec ts).fmod 86400

/-- The civil-from-days core, inside one 400-year era: year of era from
the day of era (doe in [0, 146096]). -/
def yoeOf (doe : Nat) : Nat := (doe - doe / 1460 + doe / 36524 - doe / 146096) / 365

/-- Day of year (March-based) from the day of era. -/
def doyOf (doe : Nat) : Nat :=
  doe - (365 * yoeOf doe + yoeOf doe / 4 - yoeOf doe / 100)

/-- March-based month index in [0, 11] from the day of era. -/
def mpOf (doe : Nat) : Nat := (5 * doyOf doe + 2) / 153

/-- Day of month in [1, 31] from the day of era. -/
def domOf (doe : Nat) : Nat := doyOf doe - (153 * mpOf doe + 2) / 5 + 1

/-- Civil month in [1, 12] from the day of era. -/
def monOf (doe : Nat) : Nat := if mpOf doe < 10 then mpOf doe + 3 else mpOf doe - 9

/-- Civil date (year, month, day) from days since 1970-01-01. -/
def civilFromDays (z : Int) : Int × Nat × Nat :=
  let z' := z + 719468
  let era := z'.fdiv 146097
  let doe := (z'.fmod 146097).toNat
  let m := monOf doe
  let y : Int := era * 400 + yoeOf doe + (if m ≤ 2 then 1 else 0)
  (y, m, domOf doe)

/-- Days since 1970-01-01 from a civil date. -/
def daysFromCivil (y : Int) (m d : Nat) : Int :=
  let y' := y - (if m ≤ 2 then 1 else 0)
  let era := y'.fdiv 400
  let yoe := (y' - era * 400).toNat
  let mp := if 2 < m then m - 3 else m + 9
  let doy := (153 * mp + 2) / 5 + d - 1
  let doe := 365 * yoe + yoe / 4 - yoe / 100 + doy
  era * 146097 + (doe : Int) - 719468

/-- Day of era on which year-of-era yoe begins (March-based years);
meaningful inside one 400-year era. -/
def yearStart (yoe : Nat) : Nat := 365 * yoe + yoe / 4 - yoe / 100

/-- The numerator inside yoeOf. -/
def hFn (n : Nat) : Nat := n - n / 1460 + n / 36524 - n / 146096

/-- The yearStart sequence capped at the era length. -/
def gS (k : Nat) : Nat := if k < 400 then yearStart k else 146097

/-- Weekday with Monday = 0 (the pandas Series.dt.weekday convention);
1970-01-01 was a Thursday, hence offset 3. -/
def weekdayOf (z : Int) : Nat := ((z + 3).fmod 7).toNat

/-- ISO 8601 week of year (the pandas Series.dt.weekofyear convention):
the week number of the Thursday of the week containing the day. -/
def isoWeek (z : Int) : Nat :=
  let thu := z + 3 - (z + 3).fmod 7
  let y := (civilFromDays thu).1
  (thu - daysFromCivil y 1 1).toNat / 7 + 1

/-- One row of the time dimension table: the tuple built on line 61 of
etl.py.  start_time is the instant itself, kept in epoch milliseconds. -/
structure TimeRow where
  start_time : Int
  hour : Nat
  day : Nat
  week : Nat
  month : Nat
  year : Int
  weekday : Nat
deriving DecidableEq

/-- Time derivation for one timestamp: the datetime conversion of line 56
and the field extraction of line 61 of etl.py. -/
def deriveTime (ts : Int) : TimeRow :=
  let z := epochDay ts
  let c := civilFromDays z
  { start_time := ts
    hour := ((secOfDay ts) / 3600).toNat
    day := c.2.2
    week := isoWeek z
    month := c.2.1
    year := c.1
    weekday := weekdayOf z }

/-! ## Data model -/

/-- A songs-table row (song_id is the natural key). -/
structure SongRow where
  song_id : String
  title : String
  artist_id : String
  year : Int
  duration : ℚ
deriving DecidableEq

/-- An artists-table row (artist_id is the natural key). -/
structure ArtistRow where
  artist_id : String
  name : String
  location : String
  latitude : ℚ
  longitude : ℚ
deriving DecidableEq

/-- A users-table row (user_id is the natural key; level is mutable). -/
structure UserRow where
  user_id : String
  first_name : String
  last_name : String
  gender : String
  level : String
deriving DecidableEq

/-- A songplays fact row; song_id and artist_id are nullable. -/
structure SongplayRow where
  start_time : Int
  user_id : String
  level : String
  song_id : Option String
  artist_id : Option String
  session_id : Int
  location : String
  user_agent : String
deriving DecidableEq

/-- One parsed line of a log file. -/
structure LogRow where
  page : String
  ts : Int
  userId : String
  firstName : String
  lastName : String
  gender : String
  level : String
  song : String
  artist : String
  length : ℚ
  sessionId : Int
  location : String
  userAgent : String
deriving DecidableEq

/-- One parsed record of a song metadata file. -/
structure SongFileRow where
  song_id : String
  title : String
  artist_id : String
  year : Int
  duration : ℚ
  artist_name : String
  artist_location : String
  artist_latitude : ℚ
  artist_longitude : ℚ
deriving DecidableEq

/-- The destination store. -/
structure DB where
  songs : List SongRow
  artists : List ArtistRow
  time : List TimeRow
  users : List UserRow
  songplays : List SongplayRow
deriving DecidableEq

/-- The empty destination store. -/
def DB.empty : DB := ⟨[], [], [], [], []⟩

/-! ## Statement semantics

sql_queries.py is imported by etl.py but is not part of the source tree,
so each statement's semantics is modelled from the specification. -/

/-- Modelled from the spec: song_table_insert (sql_queries.py is missing
from the source tree); insert-if-absent, conflict on the natural key
song_id is a no-op. -/
def songInsert (db : DB) (s : SongRow) : DB :=
  if db.songs.any fun x => x.song_id == s.song_id then db
  else { db with songs := db.songs ++ [s] }

/-- Modelled from the spec: artist_table_insert (sql_queries.py is
missing from the source tree); insert-if-absent on artist_id. -/
def artistInsert (db : DB) (a : ArtistRow) : DB :=
  if db.artists.any fun x => x.artist_id == a.artist_id then db
  else { db with artists := db.artists ++ [a] }

/-- Modelled from the spec: time_table_insert (sql_queries.py is missing
from the source tree); insert-if-absent on start_time. -/
def timeInsert (db : DB) (t : TimeRow) : DB :=
  if db.time.any fun x => x.start_time == t.start_time then db
  else { db with time := db.time ++ [t] }

/-- Modelled from the spec: user_table_insert (sql_queries.py is missing
from the source tree); insert-if-absent on user_id, on conflict update
only the subscription level. -/
def userUpsert (db : DB) (u : UserRow) : DB :=
  if db.users.any fun x => x.user_id == u.user_id then
    { db with users := db.users.map fun x =>
        if x.user_id == u.user_id then { x with level := u.level } else x }
  else { db with users := db.users ++ [u] }

/-- Modelled from the spec: songplay_table_insert (sql_queries.py is
missing from the source tree); unconditional append, no conflict key. -/
def songplayInsert (db : DB) (sp : SongplayRow) : DB :=
  { db with songplays := db.songplays ++ [sp] }

/-- Modelled from the spec: song_select (sql_queries.py is missing from
the source tree); first song/artist pair joined on artist_id whose
title, artist name and duration equal the event's song, artist and
length, under exact equality. -/
def songSelect (db : DB) (song artist : String) (length : ℚ) :
    Option (String × String) :=
  db.songs.findSome? fun s =>
    if s.title == song && s.duration == length then
      (db.artists.find? fun a =>
          a.artist_id == s.artist_id && a.name == artist).map
        fun a => (s.song_id, a.artist_id)
    else none

/-! ## Per-file processing (etl.py) -/

/-- Abort causes: a file that does not decode, and an out-of-range first
record access. -/
inductive EtlError where
  | parse
  | index
deriving DecidableEq

/-- Embedding of process_song_file (etl.py lines 9-28): the first parsed
record yields one song insert and one artist insert; an undecodable file
(pd.read_json raising, or a required column absent) is the parse error,
and an empty record list makes song_data[0] raise, the index error. -/
def process_song_file (db : DB) (file : Option (List SongFileRow)) :
    Except EtlError DB :=
  match file with
  | none => .error .parse
  | some [] => .error .index
  | some (r :: _) =>
      let db1 := songInsert db ⟨r.song_id, r.title, r.artist_id, r.year, r.duration⟩
      .ok (artistInsert db1
        ⟨r.artist_id, r.artist_name, r.artist_location, r.artist_latitude,
          r.artist_longitude⟩)

/-- The NextSong page filter of etl.py line 53. -/
def isNextSong (r : LogRow) : Bool := r.page == "NextSong"

/-- The derived time rows of one log file (etl.py lines 56-63), one per
filtered line. -/
def timeCandidates (rows : List LogRow) : List TimeRow :=
  (rows.filter isNextSong).map fun r => deriveTime r.ts

/-- The user attributes of one log line (etl.py line 69). -/
def userRowOf (r : LogRow) : UserRow :=
  ⟨r.userId, r.firstName, r.lastName, r.gender, r.level⟩

/-- One iteration of the songplay loop of etl.py lines 76-89: resolve
the song/artist pair through song_select, fall back to null/null, and
append the fact row. -/
def factStep (db : DB) (r : LogRow) : DB :=
  match songSelect db r.song r.artist r.length with
  | some (sid, aid) =>
      songplayInsert db
        ⟨r.ts, r.userId, r.level, some sid, some aid, r.sessionId,
          r.location, r.userAgent⟩
  | none =>
      songplayInsert db
        ⟨r.ts, r.userId, r.level, none, none, r.sessionId,
          r.location, r.userAgent⟩

/-- Embedding of process_log_file (etl.py lines 31-89): filter to
NextSong lines, insert the derived time rows, then the user rows, then
the resolved songplay rows. -/
def process_log_file (db : DB) (rows : List LogRow) : DB :=
  let f := rows.filter isNextSong
  let db1 := (timeCandidates rows).foldl timeInsert db
  let db2 := f.foldl (fun d r => userUpsert d (userRowOf r)) db1
  f.foldl factStep db2

/-- A log file behind its decode step: pd.read_json may fail. -/
def process_log_fileE (db : DB) (file : Option (List LogRow)) :
    Except EtlError DB :=
  match file with
  | none => .error .parse
  | some rows => .ok (process_log_file db rows)

/-! ## The batch driver (process_data, etl.py lines 92-115) -/

/-- Observable events of one process_data run: the file-count line
printed before the loop, a per-file commit, and the progress line
printed after it. -/
inductive Ev where
  | found (n : Nat)
  | commit (i : Nat)
  | report (i n : Nat)
deriving DecidableEq

/-- Embedding of the loop of process_data (etl.py lines 112-115) over
any state type: process a file, commit its result, report progress;
an exception propagates at once, leaving the state at the last commit. -/
def process_data {σ F E : Type} (func : σ → F → Except E σ) :
    σ → List F → Nat → Nat → List Ev × σ × Option E
  | s, [], _, _ => ([], s, none)
  | s, f :: fs, i, n =>
    match func s f with
    | .ok s' =>
        let rest := process_data func s' fs (i + 1) n
        (Ev.commit i :: Ev.report i n :: rest.1, rest.2)
    | .error e => ([], s, some e)

/-- Embedding of process_data (etl.py lines 92-115): count the
discovered files, report the count, then drive the loop with the
1-based counter of enumerate(all_files, 1). -/
def process_data_top {σ F E : Type} (func : σ → F → Except E σ)
    (s : σ) (files : List F) : List Ev × σ × Option E :=
  let r := process_data func s files 1 files.length
  (Ev.found files.length :: r.1, r.2)

/-- The state part of the driver alone: fold the files, stopping at the
first error. -/
def runFiles {σ F E : Type} (func : σ → F → Except E σ) :
    σ → List F → Except E σ
  | s, [] => .ok s
  | s, f :: fs =>
    match func s f with
    | .ok s' => runFiles func s' fs
    | .error e => .error e

/-- The event trace of a fully successful run of len files, counting
from i out of n. -/
def reportTrace (i n : Nat) : Nat → List Ev
  | 0 => []
  | k + 1 => Ev.commit i :: Ev.report i n :: reportTrace (i + 1) n k

/-- Embedding of main (etl.py lines 118-135): the song tree first, then
the log tree. -/
def pipeline (sf : List (Option (List SongFileRow)))
    (lf : List (Option (List LogRow))) (db : DB) : Except EtlError DB :=
  match runFiles process_song_file db sf with
  | .ok db1 => runFiles process_log_fileE db1 lf
  | .error e => .error e

/-! ## Observation predicates -/

/-- A song with the given natural key is present. -/
def hasSong (db : DB) (k : String) : Prop := ∃ s ∈ db.songs, s.song_id = k

/-- An artist with the given natural key is present. -/
def hasArtist (db : DB) (k : String) : Prop := ∃ a ∈ db.artists, a.artist_id = k

/-- A time row with the given start_time is present. -/
def hasTime (db : DB) (k : Int) : Prop := ∃ t ∈ db.time, t.start_time = k

/-- A user with the given natural key is present. -/
def hasUser (db : DB) (k : String) : Prop := ∃ u ∈ db.users, u.user_id = k

/-- Natural keys only ever accumulate from db to db'. -/
def keysMono (db db' : DB) : Prop :=
  (∀ k, hasSong db k → hasSong db' k) ∧ (∀ k, hasArtist db k → hasArtist db' k) ∧
    (∀ k, hasTime db k → hasTime db' k) ∧ (∀ k, hasUser db k → hasUser db' k)

/-- The dimension tables of db agree with those of base: the immutable
three are unchanged and the users table kept its row count while only
accumulating keys. -/
def dimsInv (base db : DB) : Prop :=
  db.songs = base.songs ∧ db.artists = base.artists ∧ db.time = base.time ∧
    db.users.length = base.users.length ∧ (∀ k, hasUser base k → hasUser db k)

/-- The song/artist pair (s, a) matches the event attributes under the
song_select join of the specification. -/
def matchPair (db : DB) (song artist : String) (length : ℚ)
    (s : SongRow) (a : ArtistRow) : Prop :=
  s ∈ db.songs ∧ a ∈ db.artists ∧ a.artist_id = s.artist_id ∧
    s.title = song ∧ a.name = artist ∧ s.duration = length

/-- The foreign keys of a fact row are both resolved or both null. -/
def pairedRow (sp : SongplayRow) : Prop :=
  (sp.song_id.isSome = true ∧ sp.artist_id.isSome = true) ∨
    (sp.song_id = none ∧ sp.artist_id = none)

/-! ## Calendar lemmas -/

theorem yoeOf_eq (doe : Nat) : yoeOf doe = hFn doe / 365 := rfl

theorem hFn_mono_step (n : Nat) (h : n + 1 ≤ 146096) : hFn n ≤ hFn (n + 1) := by
  have h1460 : (n + 1) / 1460 = n / 1460 + if 1460 ∣ n + 1 then 1 else 0 :=
    Nat.succ_div n 1460
  have h36524 : (n + 1) / 36524 = n / 36524 + if 36524 ∣ n + 1 then 1 else 0 :=
    Nat.succ_div n 36524
  have h146096 : (n + 1) / 146096 = n / 146096 + if 146096 ∣ n + 1 then 1 else 0 :=
    Nat.succ_div n 146096
  have hcb : n / 146096 ≤ n / 36524 := Nat.div_le_div_left (by norm_num) (by norm_num)
  have hcb' : (n + 1) / 146096 ≤ (n + 1) / 36524 :=
    Nat.div_le_div_left (by norm_num) (by norm_num)
  have han : n / 1460 ≤ n := Nat.div_le_self n 1460
  have han' : (n + 1) / 1460 ≤ n + 1 := Nat.div_le_self (n + 1) 1460
  by_cases hd1 : 1460 ∣ n + 1
  · by_cases hd2 : 146096 ∣ n + 1
    · exfalso
      have hlcm : Nat.lcm 1460 146096 ∣ n + 1 := Nat.lcm_dvd hd1 hd2
      have hl : (53325040 : Nat) ∣ n + 1 := by
        have he : Nat.lcm 1460 146096 = 53325040 := by decide
        rwa [he] at hlcm
      have := Nat.le_of_dvd (Nat.succ_pos n) hl
      omega
    · simp only [hd1, hd2, if_true, if_false] at h1460 h146096
      unfold hFn
      omega
  · simp only [hd1, if_false] at h1460
    unfold hFn
    omega

theorem hFn_mono {a b : Nat} (hab : a ≤ b) (hb : b ≤ 146096) : hFn a ≤ hFn b := by
  induction b with
  | zero =>
    have ha : a = 0 := Nat.le_zero.mp hab
    simp [ha]
  | succ k ih =>
    rcases Nat.lt_or_ge a (k + 1) with hlt | hge
    · exact le_trans (ih (Nat.lt_succ_iff.mp hlt) (by omega)) (hFn_mono_step k hb)
    · have hak : a = k + 1 := le_antisymm hab hge
      simp [hak]

theorem yoeOf_mono {a b : Nat} (hab : a ≤ b) (hb : b ≤ 146096) : yoeOf a ≤ yoeOf b := by
  rw [yoeOf_eq, yoeOf_eq]
  exact Nat.div_le_div_right (hFn_mono hab hb)

set_option maxRecDepth 4000 in
/-- Year boundary facts, checked for each of the 400 years of an era. -/
theorem yearBoundary :
    ∀ yoe : Nat, yoe < 400 →
      yoeOf (gS yoe) = yoe ∧ yoeOf (gS (yoe + 1) - 1) = yoe ∧
        gS (yoe + 1) - gS yoe ≤ 366 ∧ gS yoe ≤ gS (yoe + 1) - 1 := by
  decide

/-- A value below g K sits between two consecutive values of g when g 0 = 0. -/
theorem bracket (g : Nat → Nat) (h0 : g 0 = 0) :
    ∀ K n : Nat, n < g K → ∃ k, k < K ∧ g k ≤ n ∧ n < g (k + 1) := by
  intro K
  induction K with
  | zero => intro n hn; omega
  | succ K ih =>
    intro n hn
    rcases Nat.lt_or_ge n (g K) with hlt | hge
    · obtain ⟨k, hk, h1, h2⟩ := ih n hlt
      exact ⟨k, by omega, h1, h2⟩
    · exact ⟨K, by omega, hge, hn⟩

theorem doe_decomp (doe : Nat) (h : doe < 146097) :
    yoeOf doe ≤ 399 ∧ yearStart (yoeOf doe) ≤ doe ∧ doe - yearStart (yoeOf doe) < 366 := by
  obtain ⟨k, hk, h1, h2⟩ := bracket gS rfl 400 doe (by simpa [gS] using h)
  obtain ⟨b1, b2, b3, b4⟩ := yearBoundary k hk
  have hdoele : doe ≤ gS (k + 1) - 1 := by omega
  have hend : gS (k + 1) - 1 ≤ 146096 := by
    unfold gS
    split
    · next hlt =>
        have d100j : (k + 1) / 100 ≤ (k + 1) / 4 :=
          Nat.div_le_div_left (by norm_num) (by norm_num)
        unfold yearStart
        omega
    · omega
  have hlo : k ≤ yoeOf doe := by
    have := yoeOf_mono h1 (by omega)
    omega
  have hhi : yoeOf doe ≤ k := by
    have := yoeOf_mono hdoele hend
    omega
  have hk' : yoeOf doe = k := le_antisymm hhi hlo
  have hgs : gS k = yearStart k := by simp [gS, hk]
  refine ⟨by omega, by rw [hk', ← hgs]; exact h1, ?_⟩
  rw [hk', ← hgs]
  omega

set_option maxRecDepth 4000 in
/-- Month and day-of-month reconstruction inside one (March-based) year. -/
theorem monthDay :
    ∀ doy : Nat, doy < 366 →
      (153 * ((5 * doy + 2) / 153) + 2) / 5 ≤ doy ∧ (5 * doy + 2) / 153 ≤ 11 := by
  decide

theorem doyOf_eq (doe : Nat) : doyOf doe = doe - yearStart (yoeOf doe) := rfl

/-- The core round-trip identity within one era. -/
theorem core (doe : Nat) (h : doe < 146097) :
    yoeOf doe ≤ 399 ∧ mpOf doe ≤ 11 ∧ 1 ≤ domOf doe ∧
      yearStart (yoeOf doe) + ((153 * mpOf doe + 2) / 5 + domOf doe - 1) = doe := by
  obtain ⟨hy, h1, h3⟩ := doe_decomp doe h
  have hdoy : doyOf doe < 366 := by rw [doyOf_eq]; exact h3
  obtain ⟨m1, m2⟩ := monthDay (doyOf doe) hdoy
  have hmp : mpOf doe = (5 * doyOf doe + 2) / 153 := rfl
  have hdom : domOf doe = doyOf doe - (153 * mpOf doe + 2) / 5 + 1 := rfl
  have hdoy' : doyOf doe = doe - yearStart (yoeOf doe) := doyOf_eq doe
  refine ⟨hy, by omega, by omega, ?_⟩
  omega

/-- The March-based month index is recovered from the civil month. -/
theorem mp_recover (doe : Nat) (h : mpOf doe ≤ 11) :
    (if 2 < monOf doe then monOf doe - 3 else monOf doe + 9) = mpOf doe := by
  unfold monOf
  by_cases h10 : mpOf doe < 10
  · simp only [h10, if_true]
    have h2 : 2 < mpOf doe + 3 := by omega
    simp only [h2, if_true]
    omega
  · simp only [h10, if_false]
    have h2 : ¬ 2 < mpOf doe - 9 := by omega
    simp only [h2, if_false]
    omega

/-- Reconstructing the day count from the derived civil date is the
identity: the fields produced by civilFromDays determine the day. -/
theorem daysFromCivil_civilFromDays (z : Int) :
    daysFromCivil (civilFromDays z).1 (civilFromDays z).2.1 (civilFromDays z).2.2 = z := by
  have h146097 : (0 : Int) ≤ 146097 := by norm_num
  set z' := z + 719468 with hz'
  set era := z'.fdiv 146097 with hera
  set doeI := z'.fmod 146097 with hdoeI
  have hfm : z'.fmod 146097 = z' % 146097 := Int.fmod_eq_emod z' h146097
  have hdoeI0 : 0 ≤ doeI := by rw [hdoeI, hfm]; exact Int.emod_nonneg z' (by norm_num)
  have hdoeIlt : doeI < 146097 := by
    rw [hdoeI, hfm]; exact Int.emod_lt_of_pos z' (by norm_num)
  set doe := doeI.toNat with hdoe
  have hdoecast : (doe : Int) = doeI := Int.toNat_of_nonneg hdoeI0
  have hdoelt : doe < 146097 := by omega
  have hsplit : 146097 * era + doeI = z' := by
    rw [hera, hdoeI, Int.mul_comm]
    have := Int.fmod_add_fdiv z' 146097
    omega
  obtain ⟨hy399, hmp11, hdom1, hcore⟩ := core doe hdoelt
  have hcfd : civilFromDays z =
      (era * 400 + yoeOf doe + (if monOf doe ≤ 2 then 1 else 0), monOf doe, domOf doe) := by
    simp only [civilFromDays]
  rw [hcfd]
  simp only [daysFromCivil]
  have hadj : (era * 400 + (yoeOf doe : Int) + (if monOf doe ≤ 2 then 1 else 0)) -
      (if monOf doe ≤ 2 then 1 else 0) = era * 400 + (yoeOf doe : Int) := by ring
  rw [hadj]
  have hyoe0 : (0 : Int) ≤ (yoeOf doe : Int) := Int.natCast_nonneg _
  have hyoelt : (yoeOf doe : Int) < 400 := by
    have : (yoeOf doe : Int) ≤ 399 := by exact_mod_cast hy399
    omega
  have herafd : (era * 400 + (yoeOf doe : Int)).fdiv 400 = era := by
    rw [Int.fdiv_eq_ediv _ (by norm_num)]
    rw [Int.add_comm, Int.add_mul_ediv_right _ _ (by norm_num : (400 : Int) ≠ 0)]
    rw [Int.ediv_eq_zero_of_lt hyoe0 hyoelt]
    ring
  rw [herafd]
  have hyoeback : (era * 400 + (yoeOf doe : Int) - era * 400).toNat = yoeOf doe := by
    have hc : era * 400 + (yoeOf doe : Int) - era * 400 = (yoeOf doe : Int) := by ring
    rw [hc, Int.toNat_natCast]
  rw [hyoeback, mp_recover doe hmp11]
  have hdoeeq : 365 * yoeOf doe + yoeOf doe / 4 - yoeOf doe / 100 +
      ((153 * mpOf doe + 2) / 5 + domOf doe - 1) = doe := by
    have hys : yearStart (yoeOf doe) = 365 * yoeOf doe + yoeOf doe / 4 - yoeOf doe / 100 := rfl
    omega
  rw [hdoeeq, hdoecast]
  omega

/-- The derived hour is at most 23. -/
theorem deriveTime_hour_le (ts : Int) : (deriveTime ts).hour ≤ 23 := by
  have hfm : (epochSec ts).fmod 86400 = epochSec ts % 86400 :=
    Int.fmod_eq_emod _ (by norm_num)
  have h0 : 0 ≤ secOfDay ts := by
    unfold secOfDay
    rw [hfm]
    exact Int.emod_nonneg _ (by norm_num)
  have hlt : secOfDay ts < 86400 := by
    unfold secOfDay
    rw [hfm]
    exact Int.emod_lt_of_pos _ (by norm_num)
  have hq : secOfDay ts / 3600 ≤ 23 := by omega
  show ((secOfDay ts) / 3600).toNat ≤ 23
  omega

/-- The derived weekday is at most 6. -/
theorem deriveTime_weekday_le (ts : Int) : (deriveTime ts).weekday ≤ 6 := by
  have hfm : (epochDay ts + 3).fmod 7 = (epochDay ts + 3) % 7 :=
    Int.fmod_eq_emod _ (by norm_num)
  have hlt : (epochDay ts + 3) % 7 < 7 := Int.emod_lt_of_pos _ (by norm_num)
  have h0 : 0 ≤ (epochDay ts + 3) % 7 := Int.emod_nonneg _ (by norm_num)
  show ((epochDay ts + 3).fmod 7).toNat ≤ 6
  rw [hfm]
  omega

/-- The derived (year, month, day) reconstruct the day of the instant. -/
theorem deriveTime_date_eq (ts : Int) :
    daysFromCivil (deriveTime ts).year (deriveTime ts).month (deriveTime ts).day
      = epochDay ts := by
  have hy : (deriveTime ts).year = (civilFromDays (epochDay ts)).1 := rfl
  have hm : (deriveTime ts).month = (civilFromDays (epochDay ts)).2.1 := rfl
  have hd : (deriveTime ts).day = (civilFromDays (epochDay ts)).2.2 := rfl
  rw [hy, hm, hd]
  exact daysFromCivil_civilFromDays (epochDay ts)

/-- C4: for any event timestamp, the derived hour is in [0, 23], the
derived weekday is in [0, 6] under the fixed 0-based (Monday = 0)
convention, the calendar date reconstructed from the derived
(year, month, day) equals the calendar date of the direct conversion of
the timestamp, and the week field is the ISO week-of-year of the
instant, all produced by the one fixed function deriveTime applied
uniformly to every row. -/
theorem claim_C4 (ts : Int) :
    (deriveTime ts).hour ≤ 23 ∧ (deriveTime ts).weekday ≤ 6 ∧
      daysFromCivil (deriveTime ts).year (deriveTime ts).month (deriveTime ts).day
        = epochDay ts ∧
      (deriveTime ts).week = isoWeek (epochDay ts) :=
  ⟨deriveTime_hour_le ts, deriveTime_weekday_le ts, deriveTime_date_eq ts, rfl⟩

/-- C9 counterexample: the claim says invalid or negative timestamps
fail with a ValidationError, but time derivation in the code has no
error path at all: at the negative timestamp -86400000 (one day before
the epoch) it silently returns the well-formed record for
1969-12-31, hour 0, ISO week 1, weekday 2 (Wednesday). -/
theorem claim_C9_counterexample :
    deriveTime (-86400000) = ⟨-86400000, 0, 31, 1, 12, 1969, 2⟩ := by
  decide

/-- C9 (amended): time derivation is a pure total function of the
timestamp with no error cases at all; a negative timestamp is not
rejected with a ValidationError but silently yields the correct
well-formed pre-epoch date (bounded hour and weekday, and a
(year, month, day) triple that reconstructs the instant's day). -/
theorem claim_C9 (ts : Int) (_h : ts < 0) :
    (deriveTime ts).hour ≤ 23 ∧ (deriveTime ts).weekday ≤ 6 ∧
      daysFromCivil (deriveTime ts).year (deriveTime ts).month (deriveTime ts).day
        = epochDay ts :=
  ⟨deriveTime_hour_le ts, deriveTime_weekday_le ts, deriveTime_date_eq ts⟩

/-- Witness for C9 at the concrete timestamp -86400000. -/
theorem claim_C9_witness :
    (-86400000 : Int) < 0 ∧
      ((deriveTime (-86400000)).hour ≤ 23 ∧ (deriveTime (-86400000)).weekday ≤ 6 ∧
        daysFromCivil (deriveTime (-86400000)).year (deriveTime (-86400000)).month
          (deriveTime (-86400000)).day = epochDay (-86400000)) :=
  ⟨by norm_num, claim_C9 (-86400000) (by norm_num)⟩

/-! ## Component preservation lemmas -/

theorem songInsert_artists (db : DB) (s : SongRow) :
    (songInsert db s).artists = db.artists := by
  unfold songInsert; split <;> rfl

theorem songInsert_time (db : DB) (s : SongRow) :
    (songInsert db s).time = db.time := by
  unfold songInsert; split <;> rfl

theorem songInsert_users (db : DB) (s : SongRow) :
    (songInsert db s).users = db.users := by
  unfold songInsert; split <;> rfl

theorem songInsert_songplays (db : DB) (s : SongRow) :
    (songInsert db s).songplays = db.songplays := by
  unfold songInsert; split <;> rfl

theorem artistInsert_songs (db : DB) (a : ArtistRow) :
    (artistInsert db a).songs = db.songs := by
  unfold artistInsert; split <;> rfl

theorem artistInsert_time (db : DB) (a : ArtistRow) :
    (artistInsert db a).time = db.time := by
  unfold artistInsert; split <;> rfl

theorem artistInsert_users (db : DB) (a : ArtistRow) :
    (artistInsert db a).users = db.users := by
  unfold artistInsert; split <;> rfl

theorem artistInsert_songplays (db : DB) (a : ArtistRow) :
    (artistInsert db a).songplays = db.songplays := by
  unfold artistInsert; split <;> rfl

theorem timeInsert_songs (db : DB) (t : TimeRow) :
    (timeInsert db t).songs = db.songs := by
  unfold timeInsert; split <;> rfl

theorem timeInsert_artists (db : DB) (t : TimeRow) :
    (timeInsert db t).artists = db.artists := by
  unfold timeInsert; split <;> rfl

theorem timeInsert_users (db : DB) (t : TimeRow) :
    (timeInsert db t).users = db.users := by
  unfold timeInsert; split <;> rfl

theorem timeInsert_songplays (db : DB) (t : TimeRow) :
    (timeInsert db t).songplays = db.songplays := by
  unfold timeInsert; split <;> rfl

theorem userUpsert_songs (db : DB) (u : UserRow) :
    (userUpsert db u).songs = db.songs := by
  unfold userUpsert; split <;> rfl

theorem userUpsert_artists (db : DB) (u : UserRow) :
    (userUpsert db u).artists = db.artists := by
  unfold userUpsert; split <;> rfl

theorem userUpsert_time (db : DB) (u : UserRow) :
    (userUpsert db u).time = db.time := by
  unfold userUpsert; split <;> rfl

theorem userUpsert_songplays (db : DB) (u : UserRow) :
    (userUpsert db u).songplays = db.songplays := by
  unfold userUpsert; split <;> rfl

theorem factStep_songs (db : DB) (r : LogRow) :
    (factStep db r).songs = db.songs := by
  unfold factStep
  rcases songSelect db r.song r.artist r.length with _ | ⟨sid, aid⟩ <;> rfl

theorem factStep_artists (db : DB) (r : LogRow) :
    (factStep db r).artists = db.artists := by
  unfold factStep
  rcases songSelect db r.song r.artist r.length with _ | ⟨sid, aid⟩ <;> rfl

theorem factStep_time (db : DB) (r : LogRow) :
    (factStep db r).time = db.time := by
  unfold factStep
  rcases songSelect db r.song r.artist r.length with _ | ⟨sid, aid⟩ <;> rfl

theorem factStep_users (db : DB) (r : LogRow) :
    (factStep db r).users = db.users := by
  unfold factStep
  rcases songSelect db r.song r.artist r.length with _ | ⟨sid, aid⟩ <;> rfl

/-- The fact loop appends exactly one row per filtered line, whose
start_time is the row's timestamp and whose foreign keys are paired. -/
theorem factStep_appends (db : DB) (r : LogRow) :
    ∃ sp, (factStep db r).songplays = db.songplays ++ [sp] ∧
      sp.start_time = r.ts ∧ pairedRow sp := by
  unfold factStep
  rcases songSelect db r.song r.artist r.length with _ | ⟨sid, aid⟩
  · exact ⟨_, rfl, rfl, Or.inr ⟨rfl, rfl⟩⟩
  · exact ⟨_, rfl, rfl, Or.inl ⟨rfl, rfl⟩⟩

/-- Folding an operation that preserves a projection preserves it. -/
theorem foldl_preserve {α β : Type} (op : DB → α → DB) (proj : DB → β)
    (hop : ∀ d a, proj (op d a) = proj d) :
    ∀ (l : List α) (db : DB), proj (l.foldl op db) = proj db := by
  intro l
  induction l with
  | nil => intro db; rfl
  | cons a t ih =>
    intro db
    rw [List.foldl_cons, ih, hop]

theorem foldl_factStep_length :
    ∀ (l : List LogRow) (db : DB),
      (l.foldl factStep db).songplays.length = db.songplays.length + l.length := by
  intro l
  induction l with
  | nil => intro db; rfl
  | cons a t ih =>
    intro db
    rw [List.foldl_cons, ih]
    obtain ⟨sp, hsp, -, -⟩ := factStep_appends db a
    rw [hsp]
    simp
    omega

theorem process_log_file_eq (db : DB) (rows : List LogRow) :
    process_log_file db rows =
      (rows.filter isNextSong).foldl factStep
        ((rows.filter isNextSong).foldl (fun d r => userUpsert d (userRowOf r))
          ((timeCandidates rows).foldl timeInsert db)) := rfl

theorem filter_isNextSong_idem (rows : List LogRow) :
    (rows.filter isNextSong).filter isNextSong = rows.filter isNextSong := by
  induction rows with
  | nil => rfl
  | cons a t ih =>
    by_cases h : isNextSong a
    · simp [List.filter_cons, h, ih]
    · simp [List.filter_cons, h, ih]

/-- C2: per log file, the number of songplay fact rows appended and the
number of derived time-record candidates both equal the number of input
lines whose page is NextSong, and the processing of a log file is
unchanged when the non-NextSong lines are dropped up front. -/
theorem claim_C2 (db : DB) (rows : List LogRow) :
    (process_log_file db rows).songplays.length
        = db.songplays.length + (rows.filter isNextSong).length ∧
      (timeCandidates rows).length = (rows.filter isNextSong).length ∧
      process_log_file db rows = process_log_file db (rows.filter isNextSong) := by
  refine ⟨?_, ?_, ?_⟩
  · rw [process_log_file_eq, foldl_factStep_length]
    have h1 : ∀ d (a : LogRow), (userUpsert d (userRowOf a)).songplays = d.songplays :=
      fun d a => userUpsert_songplays d (userRowOf a)
    rw [foldl_preserve _ DB.songplays h1]
    rw [foldl_preserve timeInsert DB.songplays timeInsert_songplays]
  · unfold timeCandidates
    rw [List.length_map]
  · unfold process_log_file timeCandidates
    rw [filter_isNextSong_idem]

/-- C5: every songplay fact row has its two foreign keys either both
resolved or both null; processing a log file preserves this invariant
of the songplays table. -/
theorem claim_C5 (db : DB) (rows : List LogRow)
    (h : ∀ sp ∈ db.songplays, pairedRow sp) :
    ∀ sp ∈ (process_log_file db rows).songplays, pairedRow sp := by
  rw [process_log_file_eq]
  have h1 : ∀ d (a : LogRow), (userUpsert d (userRowOf a)).songplays = d.songplays :=
    fun d a => userUpsert_songplays d (userRowOf a)
  have hbase : ∀ sp ∈ ((rows.filter isNextSong).foldl
      (fun d r => userUpsert d (userRowOf r))
      ((timeCandidates rows).foldl timeInsert db)).songplays, pairedRow sp := by
    rw [foldl_preserve _ DB.songplays h1]
    rw [foldl_preserve timeInsert DB.songplays timeInsert_songplays]
    exact h
  generalize ((rows.filter isNextSong).foldl (fun d r => userUpsert d (userRowOf r))
      ((timeCandidates rows).foldl timeInsert db)) = db2 at hbase ⊢
  induction rows.filter isNextSong generalizing db2 with
  | nil => exact hbase
  | cons a t ih =>
    rw [List.foldl_cons]
    refine ih (factStep db2 a) ?_
    obtain ⟨sp', hsp', -, hpair⟩ := factStep_appends db2 a
    rw [hsp']
    intro sp hsp
    rcases List.mem_append.mp hsp with hin | hone
    · exact hbase sp hin
    · rw [List.mem_singleton.mp hone]
      exact hpair

/-- Witness for C5 on a one-line log over the empty store. -/
theorem claim_C5_witness :
    pairedRow ⟨0, "7", "free", none, none, 100, "LA", "UA"⟩ :=
  claim_C5 DB.empty
    [⟨"NextSong", 0, "7", "A", "B", "F", "free", "T", "X", 200, 100, "LA", "UA"⟩]
    (by intro sp hsp; simp [DB.empty] at hsp)
    ⟨0, "7", "free", none, none, 100, "LA", "UA"⟩ (by decide)

/-- After a time insert a row with the inserted key is present, whether
the insert appended or conflict-skipped. -/
theorem timeInsert_has (db : DB) (t : TimeRow) :
    ∃ tr ∈ (timeInsert db t).time, tr.start_time = t.start_time := by
  unfold timeInsert
  split
  · next hany =>
      obtain ⟨x, hx, hbeq⟩ := List.any_eq_true.mp hany
      exact ⟨x, hx, beq_iff_eq.mp hbeq⟩
  · exact ⟨t, List.mem_append_right _ (List.mem_singleton.mpr rfl), rfl⟩

theorem timeInsert_mem_mono (db : DB) (t tr : TimeRow) (h : tr ∈ db.time) :
    tr ∈ (timeInsert db t).time := by
  unfold timeInsert
  split
  · exact h
  · exact List.mem_append_left _ h

theorem foldl_timeInsert_mem_mono :
    ∀ (l : List TimeRow) (db : DB) (tr : TimeRow), tr ∈ db.time →
      tr ∈ (l.foldl timeInsert db).time := by
  intro l
  induction l with
  | nil => intro db tr h; exact h
  | cons a t ih =>
    intro db tr h
    rw [List.foldl_cons]
    exact ih _ _ (timeInsert_mem_mono db a tr h)

/-- Every candidate key of the time fold is present afterwards. -/
theorem foldl_timeInsert_has :
    ∀ (l : List TimeRow) (db : DB) (t0 : TimeRow), t0 ∈ l →
      ∃ tr ∈ (l.foldl timeInsert db).time, tr.start_time = t0.start_time := by
  intro l
  induction l with
  | nil => intro db t0 h; cases h
  | cons a t ih =>
    intro db t0 h
    rw [List.foldl_cons]
    rcases List.mem_cons.mp h with heq | hin
    · subst heq
      obtain ⟨tr, htr, heq⟩ := timeInsert_has db t0
      exact ⟨tr, foldl_timeInsert_mem_mono t _ tr htr, heq⟩
    · exact ih _ t0 hin

/-- Songplay rows produced by the fact loop stem from its input lines. -/
theorem foldl_factStep_mem :
    ∀ (l : List LogRow) (db : DB) (sp : SongplayRow),
      sp ∈ (l.foldl factStep db).songplays →
        sp ∈ db.songplays ∨ ∃ r ∈ l, sp.start_time = r.ts := by
  intro l
  induction l with
  | nil => intro db sp h; exact Or.inl h
  | cons a t ih =>
    intro db sp h
    rw [List.foldl_cons] at h
    rcases ih _ sp h with hin | ⟨r, hr, heq⟩
    · obtain ⟨sp', hsp', htime, -⟩ := factStep_appends db a
      rw [hsp'] at hin
      rcases List.mem_append.mp hin with hold | hone
      · exact Or.inl hold
      · refine Or.inr ⟨a, List.mem_cons_self a t, ?_⟩
        rw [List.mem_singleton.mp hone]
        exact htime
    · exact Or.inr ⟨r, List.mem_cons_of_mem a hr, heq⟩

/-- C10: every songplay row produced from a log file carries as its
start_time the derived datetime of its own event line, and a time row
with that very start_time is present in the time table after the file's
unit of work (it was inserted, or conflict-skipped as already present,
earlier in the same file pass). -/
theorem claim_C10 (db : DB) (rows : List LogRow) :
    ∀ sp ∈ (process_log_file db rows).songplays,
      sp ∈ db.songplays ∨
        ∃ r ∈ rows.filter isNextSong,
          sp.start_time = (deriveTime r.ts).start_time ∧
            ∃ tr ∈ (process_log_file db rows).time, tr.start_time = sp.start_time := by
  intro sp hsp
  rw [process_log_file_eq] at hsp
  have h1 : ∀ d (a : LogRow), (userUpsert d (userRowOf a)).songplays = d.songplays :=
    fun d a => userUpsert_songplays d (userRowOf a)
  rcases foldl_factStep_mem _ _ sp hsp with hin | ⟨r, hr, heq⟩
  · rw [foldl_preserve _ DB.songplays h1] at hin
    rw [foldl_preserve timeInsert DB.songplays timeInsert_songplays] at hin
    exact Or.inl hin
  · refine Or.inr ⟨r, hr, heq, ?_⟩
    have hcand : deriveTime r.ts ∈ timeCandidates rows :=
      List.mem_map_of_mem (fun x => deriveTime x.ts) hr
    obtain ⟨tr, htr, htreq⟩ := foldl_timeInsert_has (timeCandidates rows) db
      (deriveTime r.ts) hcand
    have htime : (process_log_file db rows).time
        = ((timeCandidates rows).foldl timeInsert db).time := by
      rw [process_log_file_eq]
      have h2 : ∀ d (a : LogRow), (userUpsert d (userRowOf a)).time = d.time :=
        fun d a => userUpsert_time d (userRowOf a)
      rw [foldl_preserve factStep DB.time factStep_time]
      rw [foldl_preserve _ DB.time h2]
    refine ⟨tr, ?_, ?_⟩
    · rw [htime]
      exact htr
    · rw [htreq, heq]
      rfl

/-- Witness for C10 on a one-line log over the empty store. -/
theorem claim_C10_witness :
    (⟨5000, "7", "free", none, none, 100, "LA", "UA"⟩ : SongplayRow) ∈ DB.empty.songplays ∨
      ∃ r ∈ ([⟨"NextSong", 5000, "7", "A", "B", "F", "free", "T", "X", 200, 100, "LA",
          "UA"⟩] : List LogRow).filter isNextSong,
        (⟨5000, "7", "free", none, none, 100, "LA", "UA"⟩ : SongplayRow).start_time
            = (deriveTime r.ts).start_time ∧
          ∃ tr ∈ (process_log_file DB.empty
              [⟨"NextSong", 5000, "7", "A", "B", "F", "free", "T", "X", 200, 100, "LA",
                "UA"⟩]).time,
            tr.start_time
              = (⟨5000, "7", "free", none, none, 100, "LA", "UA"⟩ : SongplayRow).start_time :=
  claim_C10 DB.empty
    [⟨"NextSong", 5000, "7", "A", "B", "F", "free", "T", "X", 200, 100, "LA", "UA"⟩]
    ⟨5000, "7", "free", none, none, 100, "LA", "UA"⟩ (by decide)

/-- When no loaded song/artist pair matches the event attributes, the
lookup returns no row. -/
theorem songSelect_none (db : DB) (song artist : String) (length : ℚ)
    (h : ∀ s a, ¬ matchPair db song artist length s a) :
    songSelect db song artist length = none := by
  unfold songSelect
  rw [List.findSome?_eq_none_iff]
  intro x hx
  by_cases hg : (x.title == song && x.duration == length) = true
  · rw [if_pos hg]
    obtain ⟨hg1, hg2⟩ := Bool.and_eq_true_iff.mp hg
    cases hfind : db.artists.find?
        (fun a' => a'.artist_id == x.artist_id && a'.name == artist) with
    | none => rfl
    | some a0 =>
      exfalso
      have hp := List.find?_some hfind
      have hm0 := List.mem_of_find?_eq_some hfind
      obtain ⟨hp1, hp2⟩ := Bool.and_eq_true_iff.mp hp
      exact h x a0 ⟨hx, hm0, beq_iff_eq.mp hp1, beq_iff_eq.mp hg1,
        beq_iff_eq.mp hp2, beq_iff_eq.mp hg2⟩
  · rw [if_neg hg]

/-- When exactly one loaded song/artist pair matches the event
attributes, the lookup returns that pair's ids. -/
theorem songSelect_some_of_unique (db : DB) (song artist : String) (length : ℚ)
    (s : SongRow) (a : ArtistRow)
    (hm : matchPair db song artist length s a)
    (huniq : ∀ s' a', matchPair db song artist length s' a' → s' = s ∧ a' = a) :
    songSelect db song artist length = some (s.song_id, a.artist_id) := by
  obtain ⟨hsmem, hamem, haid, ht, hn, hd⟩ := hm
  have hfs : (if s.title == song && s.duration == length then
      (db.artists.find? fun a' => a'.artist_id == s.artist_id && a'.name == artist).map
        (fun a' => (s.song_id, a'.artist_id)) else none) = some (s.song_id, a.artist_id) := by
    rw [if_pos (by rw [ht, hd]; simp)]
    have hpa : (fun a' : ArtistRow => a'.artist_id == s.artist_id && a'.name == artist) a
        = true := by
      simp [haid, hn]
    have hsome : (db.artists.find?
        fun a' => a'.artist_id == s.artist_id && a'.name == artist).isSome :=
      List.find?_isSome.mpr ⟨a, hamem, hpa⟩
    obtain ⟨a'', hfind⟩ := Option.isSome_iff_exists.mp hsome
    have hp := List.find?_some hfind
    have hmem'' := List.mem_of_find?_eq_some hfind
    obtain ⟨hp1, hp2⟩ := Bool.and_eq_true_iff.mp hp
    have huq := huniq s a'' ⟨hsmem, hmem'', beq_iff_eq.mp hp1, ht, beq_iff_eq.mp hp2, hd⟩
    rw [hfind]
    simp [huq.2]
  unfold songSelect
  suffices haux : ∀ L : List SongRow, (∀ x ∈ L, x ∈ db.songs) → s ∈ L →
      (L.findSome? fun x =>
        if x.title == song && x.duration == length then
          (db.artists.find? fun a' => a'.artist_id == x.artist_id && a'.name == artist).map
            (fun a' => (x.song_id, a'.artist_id))
        else none) = some (s.song_id, a.artist_id) by
    exact haux db.songs (fun x hx => hx) hsmem
  intro L
  induction L with
  | nil => intro _ hmem; cases hmem
  | cons x t ih =>
    intro hsub hmem
    by_cases hx : x = s
    · subst hx
      rw [List.findSome?_cons_of_isSome _ (by rw [hfs]; rfl), hfs]
    · have hfx : (if x.title == song && x.duration == length then
          (db.artists.find? fun a' => a'.artist_id == x.artist_id && a'.name == artist).map
            (fun a' => (x.song_id, a'.artist_id))
          else none) = none := by
        by_cases hg : (x.title == song && x.duration == length) = true
        · rw [if_pos hg]
          obtain ⟨hg1, hg2⟩ := Bool.and_eq_true_iff.mp hg
          cases hfind : db.artists.find?
              (fun a' => a'.artist_id == x.artist_id && a'.name == artist) with
          | none => rfl
          | some a0 =>
            exfalso
            have hp := List.find?_some hfind
            have hm0 := List.mem_of_find?_eq_some hfind
            obtain ⟨hp1, hp2⟩ := Bool.and_eq_true_iff.mp hp
            have huq := huniq x a0 ⟨hsub x (List.mem_cons_self x t), hm0,
              beq_iff_eq.mp hp1, beq_iff_eq.mp hg1, beq_iff_eq.mp hp2,
              beq_iff_eq.mp hg2⟩
            exact hx huq.1
        · rw [if_neg hg]
      rw [List.findSome?_cons_of_isNone _ (by rw [hfx]; rfl)]
      refine ih (fun y hy => hsub y (List.mem_cons_of_mem x hy)) ?_
      rcases List.mem_cons.mp hmem with heq | hin
      · exact absurd heq.symm hx
      · exact hin

/-- C1: for a filtered event row, when exactly one loaded song/artist
pair matches the row's song title, artist name and duration (exact
equality, per the source's song_select), the resolver yields that
pair's ids on the appended fact row; when no pair matches it yields
null/null and the fact row is still appended — processing is total, so
the no-match case cannot abort the run. -/
theorem claim_C1 (db : DB) (r : LogRow) :
    (∀ s a, matchPair db r.song r.artist r.length s a →
        (∀ s' a', matchPair db r.song r.artist r.length s' a' → s' = s ∧ a' = a) →
        (factStep db r).songplays = db.songplays ++
          [⟨r.ts, r.userId, r.level, some s.song_id, some a.artist_id, r.sessionId,
            r.location, r.userAgent⟩]) ∧
      ((∀ s a, ¬ matchPair db r.song r.artist r.length s a) →
        (factStep db r).songplays = db.songplays ++
          [⟨r.ts, r.userId, r.level, none, none, r.sessionId, r.location,
            r.userAgent⟩]) := by
  constructor
  · intro s a hm huniq
    unfold factStep
    rw [songSelect_some_of_unique db r.song r.artist r.length s a hm huniq]
    rfl
  · intro hno
    unfold factStep
    rw [songSelect_none db r.song r.artist r.length hno]
    rfl

/-- Witness for C1: a matching store resolves the pair's ids, and the
empty store still persists the fact row with null/null. -/
theorem claim_C1_witness :
    ((factStep ⟨[⟨"S1", "T", "A1", 2000, 200⟩], [⟨"A1", "X", "L", 1, 2⟩], [], [], []⟩
        ⟨"NextSong", 1000, "7", "A", "B", "F", "free", "T", "X", 200, 100, "LA",
          "UA"⟩).songplays =
      (⟨[⟨"S1", "T", "A1", 2000, 200⟩], [⟨"A1", "X", "L", 1, 2⟩], [], [], []⟩ : DB).songplays
        ++ [⟨1000, "7", "free", some "S1", some "A1", 100, "LA", "UA"⟩]) ∧
    ((factStep DB.empty
        ⟨"NextSong", 1000, "7", "A", "B", "F", "free", "T", "X", 200, 100, "LA",
          "UA"⟩).songplays =
      DB.empty.songplays ++ [⟨1000, "7", "free", none, none, 100, "LA", "UA"⟩]) := by
  constructor
  · exact (claim_C1 ⟨[⟨"S1", "T", "A1", 2000, 200⟩], [⟨"A1", "X", "L", 1, 2⟩], [], [], []⟩
      ⟨"NextSong", 1000, "7", "A", "B", "F", "free", "T", "X", 200, 100, "LA", "UA"⟩).1
      ⟨"S1", "T", "A1", 2000, 200⟩ ⟨"A1", "X", "L", 1, 2⟩
      ⟨List.mem_singleton.mpr rfl, List.mem_singleton.mpr rfl, rfl, rfl, rfl, rfl⟩
      (fun s' a' h => ⟨List.mem_singleton.mp h.1, List.mem_singleton.mp h.2.1⟩)
  · exact (claim_C1 DB.empty
      ⟨"NextSong", 1000, "7", "A", "B", "F", "free", "T", "X", 200, 100, "LA", "UA"⟩).2
      (fun s a h => absurd h.1 (List.not_mem_nil s))

/-- A fully successful run of the loop produces the per-file
commit-then-report trace and no error. -/
theorem process_data_trace {σ F E : Type} (func : σ → F → Except E σ) :
    ∀ (files : List F) (s : σ) (i n : Nat),
      (∀ s' f, f ∈ files → ∃ s'', func s' f = .ok s'') →
      (process_data func s files i n).1 = reportTrace i n files.length ∧
        (process_data func s files i n).2.2 = none := by
  intro files
  induction files with
  | nil => intro s i n _; exact ⟨rfl, rfl⟩
  | cons f fs ih =>
    intro s i n h
    obtain ⟨s', hs'⟩ := h s f (List.mem_cons_self f fs)
    have hrec := ih s' (i + 1) n (fun s'' g hg => h s'' g (List.mem_cons_of_mem f hg))
    unfold process_data
    rw [hs']
    simp only [List.length_cons, reportTrace, List.cons.injEq, true_and]
    exact hrec

/-- C6: over any discovered file list, each file is processed as a
unit, then committed, then reported: when every file processes
successfully the observable trace is the discovered-file count followed
by, for the i-th of the n files in order, a commit with counter i
immediately followed by the progress report (i, n), with the counter
advancing by exactly one per committed file and no error. -/
theorem claim_C6 {σ F E : Type} (func : σ → F → Except E σ) (s : σ) (files : List F)
    (h : ∀ s' f, f ∈ files → ∃ s'', func s' f = .ok s'') :
    (process_data_top func s files).1
        = Ev.found files.length :: reportTrace 1 files.length files.length ∧
      (process_data_top func s files).2.2 = none := by
  obtain ⟨h1, h2⟩ := process_data_trace func files s 1 files.length h
  simp only [process_data_top]
  exact ⟨by rw [h1], h2⟩

/-- Witness for C6 on a concrete two-file run. -/
theorem claim_C6_witness :
    (process_data_top (fun (s _ : Nat) => (Except.ok (s + 1) : Except Unit Nat))
          0 [10, 20]).1
        = Ev.found 2 :: reportTrace 1 2 2 ∧
      (process_data_top (fun (s _ : Nat) => (Except.ok (s + 1) : Except Unit Nat))
          0 [10, 20]).2.2 = none :=
  claim_C6 (fun s _ => Except.ok (s + 1)) 0 [10, 20] (fun s' _ _ => ⟨s' + 1, rfl⟩)

theorem runFiles_cons_ok {σ F E : Type} {func : σ → F → Except E σ} {s s' : σ}
    {f : F} (fs : List F) (hf : func s f = .ok s') :
    runFiles func s (f :: fs) = runFiles func s' fs := by
  conv_lhs => unfold runFiles
  rw [hf]


theorem runFiles_cons_err {σ F E : Type} {func : σ → F → Except E σ} {s : σ}
    {f : F} {e : E} (fs : List F) (hf : func s f = .error e) :
    runFiles func s (f :: fs) = .error e := by
  conv_lhs => unfold runFiles
  rw [hf]

theorem process_data_cons_ok {σ F E : Type} {func : σ → F → Except E σ} {s s' : σ}
    {f : F} (fs : List F) (i n : Nat) (hf : func s f = .ok s') :
    process_data func s (f :: fs) i n
      = (Ev.commit i :: Ev.report i n :: (process_data func s' fs (i + 1) n).1,
          (process_data func s' fs (i + 1) n).2) := by
  conv_lhs => unfold process_data
  rw [hf]


theorem process_data_cons_err {σ F E : Type} {func : σ → F → Except E σ} {s : σ}
    {f : F} {e : E} (fs : List F) (i n : Nat) (hf : func s f = .error e) :
    process_data func s (f :: fs) i n = ([], s, some e) := by
  conv_lhs => unfold process_data
  rw [hf]

/-- The loop on a list whose prefix succeeds and whose next file fails
reports exactly the prefix, keeps the last committed state, and
surfaces the error. -/
theorem process_data_fail {σ F E : Type} (func : σ → F → Except E σ) :
    ∀ (pre : List F) (s sOk : σ) (post : List F) (bad : F) (e : E) (i n : Nat),
      runFiles func s pre = .ok sOk → func sOk bad = .error e →
      process_data func s (pre ++ bad :: post) i n
        = (reportTrace i n pre.length, sOk, some e) := by
  intro pre
  induction pre with
  | nil =>
    intro s sOk post bad e i n h1 h2
    have hs : s = sOk := Except.ok.inj h1
    subst hs
    rw [List.nil_append, process_data_cons_err post i n h2]
    rfl
  | cons f fs ih =>
    intro s sOk post bad e i n h1 h2
    cases hf : func s f with
    | ok s1 =>
      rw [runFiles_cons_ok fs hf] at h1
      rw [List.cons_append, process_data_cons_ok (fs ++ bad :: post) i n hf,
        ih s1 sOk post bad e (i + 1) n h1 h2]
      rfl
    | error e' =>
      rw [runFiles_cons_err fs hf] at h1
      cases h1

/-- C7: when an unhandled failure occurs on a file, the run aborts at
once: the trace stops after the commits and reports of the files before
it (no skip-and-continue, nothing for the failing file or later files),
the persisted state is exactly the state committed before the failing
file (its partial work is not persisted, earlier commits remain), and
the error surfaces. -/
theorem claim_C7 {σ F E : Type} (func : σ → F → Except E σ) (s sOk : σ)
    (pre post : List F) (bad : F) (e : E)
    (h1 : runFiles func s pre = .ok sOk) (h2 : func sOk bad = .error e) :
    process_data_top func s (pre ++ bad :: post)
      = (Ev.found (pre ++ bad :: post).length ::
          reportTrace 1 (pre ++ bad :: post).length pre.length, sOk, some e) := by
  unfold process_data_top
  rw [process_data_fail func pre s sOk post bad e 1 (pre ++ bad :: post).length h1 h2]

/-- Witness for C7: the second file fails, the first is committed and
reported, the third is never processed. -/
theorem claim_C7_witness :
    process_data_top
        (fun (s f : Nat) => if f = 0 then (Except.error "boom" : Except String Nat)
          else Except.ok (s + 1)) 5 ([1] ++ 0 :: [2])
      = (Ev.found ([1] ++ 0 :: [2]).length ::
          reportTrace 1 ([1] ++ 0 :: [2]).length [1].length, 6, some "boom") :=
  claim_C7
    (fun (s f : Nat) => if f = 0 then (Except.error "boom" : Except String Nat)
      else Except.ok (s + 1)) 5 6 [1] [2] 0 "boom" rfl rfl

/-- After a song insert a row with the inserted key is present. -/
theorem songInsert_has (db : DB) (s : SongRow) :
    hasSong (songInsert db s) s.song_id := by
  unfold songInsert hasSong
  split
  · next hany =>
      obtain ⟨x, hx, hbeq⟩ := List.any_eq_true.mp hany
      exact ⟨x, hx, beq_iff_eq.mp hbeq⟩
  · exact ⟨s, List.mem_append_right _ (List.mem_singleton.mpr rfl), rfl⟩

/-- After an artist insert a row with the inserted key is present. -/
theorem artistInsert_has (db : DB) (a : ArtistRow) :
    hasArtist (artistInsert db a) a.artist_id := by
  unfold artistInsert hasArtist
  split
  · next hany =>
      obtain ⟨x, hx, hbeq⟩ := List.any_eq_true.mp hany
      exact ⟨x, hx, beq_iff_eq.mp hbeq⟩
  · exact ⟨a, List.mem_append_right _ (List.mem_singleton.mpr rfl), rfl⟩

theorem songInsert_songs_length (db : DB) (s : SongRow) :
    (songInsert db s).songs.length ≤ db.songs.length + 1 := by
  unfold songInsert
  split
  · exact Nat.le_succ _
  · simp

theorem artistInsert_artists_length (db : DB) (a : ArtistRow) :
    (artistInsert db a).artists.length ≤ db.artists.length + 1 := by
  unfold artistInsert
  split
  · exact Nat.le_succ _
  · simp

/-- C8 counterexample: the claim says a metadata file that does not
decode to a single structured record fails with a ParseError, but a
two-record file is accepted: the code indexes the first record and
ignores the rest, succeeding with one song and one artist row from the
first record only. -/
theorem claim_C8_counterexample :
    process_song_file DB.empty
        (some [⟨"S1", "T", "A1", 2000, 200, "X", "L", 1, 2⟩,
          ⟨"S2", "U", "A2", 2001, 300, "Y", "M", 3, 4⟩])
      = .ok ⟨[⟨"S1", "T", "A1", 2000, 200⟩], [⟨"A1", "X", "L", 1, 2⟩], [], [], []⟩ := rfl

/-- C8 (amended): processing a metadata file produces exactly one song
insert and one artist insert, both taken from the first record; it
fails when the file does not decode (parse error) or decodes to zero
records (index error), but a file with more than one record is not
rejected — it behaves exactly like the one-record file of its first
record. -/
theorem claim_C8 (db : DB) (r : SongFileRow) (rest : List SongFileRow) :
    process_song_file db none = .error .parse ∧
      process_song_file db (some []) = .error .index ∧
      process_song_file db (some (r :: rest)) = process_song_file db (some [r]) ∧
      ∀ db', process_song_file db (some (r :: rest)) = .ok db' →
        hasSong db' r.song_id ∧ hasArtist db' r.artist_id ∧
          db'.songs.length ≤ db.songs.length + 1 ∧
          db'.artists.length ≤ db.artists.length + 1 ∧
          db'.time = db.time ∧ db'.users = db.users ∧ db'.songplays = db.songplays := by
  refine ⟨rfl, rfl, rfl, ?_⟩
  intro db' heq
  have hdb' : db' = artistInsert (songInsert db ⟨r.song_id, r.title, r.artist_id, r.year,
      r.duration⟩) ⟨r.artist_id, r.artist_name, r.artist_location, r.artist_latitude,
      r.artist_longitude⟩ := (Except.ok.inj heq).symm
  subst hdb'
  set s0 : SongRow := ⟨r.song_id, r.title, r.artist_id, r.year, r.duration⟩ with hs0
  set a0 : ArtistRow := ⟨r.artist_id, r.artist_name, r.artist_location, r.artist_latitude,
    r.artist_longitude⟩ with ha0
  refine ⟨?_, ?_, ?_, ?_, ?_, ?_, ?_⟩
  · have h1 : hasSong (songInsert db s0) r.song_id := songInsert_has db s0
    obtain ⟨x, hx, hxe⟩ := h1
    exact ⟨x, by rw [artistInsert_songs]; exact hx, hxe⟩
  · exact artistInsert_has (songInsert db s0) a0
  · rw [artistInsert_songs]
    exact songInsert_songs_length db s0
  · calc (artistInsert (songInsert db s0) a0).artists.length
        ≤ (songInsert db s0).artists.length + 1 :=
          artistInsert_artists_length (songInsert db s0) a0
      _ = db.artists.length + 1 := by rw [songInsert_artists]
  · rw [artistInsert_time, songInsert_time]
  · rw [artistInsert_users, songInsert_users]
  · rw [artistInsert_songplays, songInsert_songplays]

/-- Witness for C8 on a concrete store and record. -/
theorem claim_C8_witness :
    process_song_file DB.empty (some ([] : List SongFileRow)) = .error .index ∧
      (∀ db', process_song_file DB.empty
          (some [⟨"S1", "T", "A1", 2000, 200, "X", "L", 1, 2⟩]) = .ok db' →
        hasSong db' "S1" ∧ hasArtist db' "A1" ∧
          db'.songs.length ≤ DB.empty.songs.length + 1 ∧
          db'.artists.length ≤ DB.empty.artists.length + 1 ∧
          db'.time = DB.empty.time ∧ db'.users = DB.empty.users ∧
          db'.songplays = DB.empty.songplays) :=
  ⟨(claim_C8 DB.empty ⟨"S1", "T", "A1", 2000, 200, "X", "L", 1, 2⟩ []).2.1,
    (claim_C8 DB.empty ⟨"S1", "T", "A1", 2000, 200, "X", "L", 1, 2⟩ []).2.2.2⟩

/-! ## Key accumulation (towards idempotence) -/

theorem keysMono_refl (db : DB) : keysMono db db :=
  ⟨fun _ h => h, fun _ h => h, fun _ h => h, fun _ h => h⟩

theorem keysMono_trans {a b c : DB} (h1 : keysMono a b) (h2 : keysMono b c) :
    keysMono a c :=
  ⟨fun k h => h2.1 k (h1.1 k h), fun k h => h2.2.1 k (h1.2.1 k h),
    fun k h => h2.2.2.1 k (h1.2.2.1 k h), fun k h => h2.2.2.2 k (h1.2.2.2 k h)⟩

theorem songInsert_keysMono (db : DB) (s : SongRow) : keysMono db (songInsert db s) := by
  refine ⟨?_, ?_, ?_, ?_⟩
  · intro k hk
    obtain ⟨x, hx, he⟩ := hk
    unfold songInsert hasSong
    split
    · exact ⟨x, hx, he⟩
    · exact ⟨x, List.mem_append_left _ hx, he⟩
  · intro k hk
    show ∃ a ∈ (songInsert db s).artists, a.artist_id = k
    rw [songInsert_artists]
    exact hk
  · intro k hk
    show ∃ t ∈ (songInsert db s).time, t.start_time = k
    rw [songInsert_time]
    exact hk
  · intro k hk
    show ∃ u ∈ (songInsert db s).users, u.user_id = k
    rw [songInsert_users]
    exact hk

theorem artistInsert_keysMono (db : DB) (a : ArtistRow) :
    keysMono db (artistInsert db a) := by
  refine ⟨?_, ?_, ?_, ?_⟩
  · intro k hk
    show ∃ s ∈ (artistInsert db a).songs, s.song_id = k
    rw [artistInsert_songs]
    exact hk
  · intro k hk
    obtain ⟨x, hx, he⟩ := hk
    unfold artistInsert hasArtist
    split
    · exact ⟨x, hx, he⟩
    · exact ⟨x, List.mem_append_left _ hx, he⟩
  · intro k hk
    show ∃ t ∈ (artistInsert db a).time, t.start_time = k
    rw [artistInsert_time]
    exact hk
  · intro k hk
    show ∃ u ∈ (artistInsert db a).users, u.user_id = k
    rw [artistInsert_users]
    exact hk

theorem timeInsert_keysMono (db : DB) (t : TimeRow) : keysMono db (timeInsert db t) := by
  refine ⟨?_, ?_, ?_, ?_⟩
  · intro k hk
    show ∃ s ∈ (timeInsert db t).songs, s.song_id = k
    rw [timeInsert_songs]
    exact hk
  · intro k hk
    show ∃ a ∈ (timeInsert db t).artists, a.artist_id = k
    rw [timeInsert_artists]
    exact hk
  · intro k hk
    obtain ⟨x, hx, he⟩ := hk
    unfold timeInsert hasTime
    split
    · exact ⟨x, hx, he⟩
    · exact ⟨x, List.mem_append_left _ hx, he⟩
  · intro k hk
    show ∃ u ∈ (timeInsert db t).users, u.user_id = k
    rw [timeInsert_users]
    exact hk

theorem userUpsert_user_id_map (u : UserRow) (x : UserRow) :
    (if x.user_id == u.user_id then { x with level := u.level } else x).user_id
      = x.user_id := by
  split <;> rfl

theorem userUpsert_keysMono (db : DB) (u : UserRow) : keysMono db (userUpsert db u) := by
  refine ⟨?_, ?_, ?_, ?_⟩
  · intro k hk
    show ∃ s ∈ (userUpsert db u).songs, s.song_id = k
    rw [userUpsert_songs]
    exact hk
  · intro k hk
    show ∃ a ∈ (userUpsert db u).artists, a.artist_id = k
    rw [userUpsert_artists]
    exact hk
  · intro k hk
    show ∃ t ∈ (userUpsert db u).time, t.start_time = k
    rw [userUpsert_time]
    exact hk
  · intro k hk
    obtain ⟨x, hx, he⟩ := hk
    unfold userUpsert hasUser
    split
    · refine ⟨(if x.user_id == u.user_id then { x with level := u.level } else x),
        List.mem_map_of_mem _ hx, ?_⟩
      rw [userUpsert_user_id_map]
      exact he
    · exact ⟨x, List.mem_append_left _ hx, he⟩

theorem factStep_keysMono (db : DB) (r : LogRow) : keysMono db (factStep db r) := by
  refine ⟨?_, ?_, ?_, ?_⟩
  · intro k hk
    show ∃ s ∈ (factStep db r).songs, s.song_id = k
    rw [factStep_songs]
    exact hk
  · intro k hk
    show ∃ a ∈ (factStep db r).artists, a.artist_id = k
    rw [factStep_artists]
    exact hk
  · intro k hk
    show ∃ t ∈ (factStep db r).time, t.start_time = k
    rw [factStep_time]
    exact hk
  · intro k hk
    show ∃ u ∈ (factStep db r).users, u.user_id = k
    rw [factStep_users]
    exact hk

theorem foldl_keysMono {α : Type} (op : DB → α → DB)
    (hop : ∀ d a, keysMono d (op d a)) :
    ∀ (l : List α) (db : DB), keysMono db (l.foldl op db) := by
  intro l
  induction l with
  | nil => intro db; exact keysMono_refl db
  | cons a t ih =>
    intro db
    rw [List.foldl_cons]
    exact keysMono_trans (hop db a) (ih (op db a))

theorem process_log_file_keysMono (db : DB) (rows : List LogRow) :
    keysMono db (process_log_file db rows) := by
  rw [process_log_file_eq]
  have h1 := foldl_keysMono timeInsert timeInsert_keysMono (timeCandidates rows) db
  have h2 := foldl_keysMono (fun d r => userUpsert d (userRowOf r))
    (fun d a => userUpsert_keysMono d (userRowOf a)) (rows.filter isNextSong)
    (List.foldl timeInsert db (timeCandidates rows))
  have h3 := foldl_keysMono factStep factStep_keysMono (rows.filter isNextSong)
    (List.foldl (fun d r => userUpsert d (userRowOf r))
      (List.foldl timeInsert db (timeCandidates rows)) (rows.filter isNextSong))
  exact keysMono_trans h1 (keysMono_trans h2 h3)

theorem process_song_file_keysMono (db db' : DB) (file : Option (List SongFileRow))
    (h : process_song_file db file = .ok db') : keysMono db db' := by
  match file with
  | none => cases h
  | some [] => cases h
  | some (r :: rest) =>
    have hdb' : db' = artistInsert (songInsert db
        ⟨r.song_id, r.title, r.artist_id, r.year, r.duration⟩)
        ⟨r.artist_id, r.artist_name, r.artist_location, r.artist_latitude,
          r.artist_longitude⟩ := (Except.ok.inj h).symm
    subst hdb'
    exact keysMono_trans (songInsert_keysMono db _) (artistInsert_keysMono _ _)

theorem process_log_fileE_keysMono (db db' : DB) (file : Option (List LogRow))
    (h : process_log_fileE db file = .ok db') : keysMono db db' := by
  match file with
  | none => cases h
  | some rows =>
    have hdb' : db' = process_log_file db rows := (Except.ok.inj h).symm
    subst hdb'
    exact process_log_file_keysMono db rows

/-- Any state-to-state relation that is reflexive, transitive and holds
on every successful step holds across a successful runFiles chain. -/
theorem runFiles_rel {σ F E : Type} (func : σ → F → Except E σ) (P : σ → σ → Prop)
    (hrefl : ∀ s, P s s) (htrans : ∀ a b c, P a b → P b c → P a c)
    (hstep : ∀ s f s', func s f = .ok s' → P s s') :
    ∀ (l : List F) (s s' : σ), runFiles func s l = .ok s' → P s s' := by
  intro l
  induction l with
  | nil =>
    intro s s' h
    have : s = s' := Except.ok.inj h
    subst this
    exact hrefl s
  | cons f fs ih =>
    intro s s' h
    cases hf : func s f with
    | ok s1 =>
      rw [runFiles_cons_ok fs hf] at h
      exact htrans s s1 s' (hstep s f s1 hf) (ih s1 s' h)
    | error e =>
      rw [runFiles_cons_err fs hf] at h
      cases h

/-- A property of files forced by any successful step holds of every
file of a successful chain. -/
theorem runFiles_fileProp {σ F E : Type} (func : σ → F → Except E σ) (Q : F → Prop)
    (hQ : ∀ s f s', func s f = .ok s' → Q f) :
    ∀ (l : List F) (s s' : σ), runFiles func s l = .ok s' → ∀ f ∈ l, Q f := by
  intro l
  induction l with
  | nil => intro s s' _ f hf; cases hf
  | cons f fs ih =>
    intro s s' h g hg
    cases hf : func s f with
    | ok s1 =>
      rw [runFiles_cons_ok fs hf] at h
      rcases List.mem_cons.mp hg with heq | hin
      · subst heq
        exact hQ s g s1 hf
      · exact ih s1 s' h g hin
    | error e =>
      rw [runFiles_cons_err fs hf] at h
      cases h

theorem process_song_file_has (db d1 : DB) (r : SongFileRow) (rest : List SongFileRow)
    (hf : process_song_file db (some (r :: rest)) = .ok d1) :
    hasSong d1 r.song_id ∧ hasArtist d1 r.artist_id := by
  have hdb' : d1 = artistInsert (songInsert db
      ⟨r.song_id, r.title, r.artist_id, r.year, r.duration⟩)
      ⟨r.artist_id, r.artist_name, r.artist_location, r.artist_latitude,
        r.artist_longitude⟩ := (Except.ok.inj hf).symm
  subst hdb'
  constructor
  · obtain ⟨x, hx, he⟩ := songInsert_has db
      ⟨r.song_id, r.title, r.artist_id, r.year, r.duration⟩
    exact ⟨x, by rw [artistInsert_songs]; exact hx, he⟩
  · exact artistInsert_has _ _

/-- After the first song-tree run, every metadata file's first record
has its song and artist keys present. -/
theorem runFiles_song_cover :
    ∀ (sf : List (Option (List SongFileRow))) (db db' : DB),
      runFiles process_song_file db sf = .ok db' →
      ∀ file ∈ sf, ∀ r rest, file = some (r :: rest) →
        hasSong db' r.song_id ∧ hasArtist db' r.artist_id := by
  intro sf
  induction sf with
  | nil => intro db db' _ file hf; cases hf
  | cons f fs ih =>
    intro db db' h file hfile r rest heq
    cases hf : process_song_file db f with
    | ok d1 =>
      rw [runFiles_cons_ok fs hf] at h
      rcases List.mem_cons.mp hfile with hfe | hin
      · subst hfe
        subst heq
        have hhas := process_song_file_has db d1 r rest hf
        have hmono := runFiles_rel process_song_file keysMono keysMono_refl
          (fun _ _ _ hab hbc => keysMono_trans hab hbc)
          (fun s g s' hg => process_song_file_keysMono s s' g hg) fs d1 db' h
        exact ⟨hmono.1 _ hhas.1, hmono.2.1 _ hhas.2⟩
      · exact ih d1 db' h file hin r rest heq
    | error e =>
      rw [runFiles_cons_err fs hf] at h
      cases h

/-- After a user upsert a row with the upserted key is present, whether
it was inserted or updated. -/
theorem userUpsert_has (db : DB) (u : UserRow) : hasUser (userUpsert db u) u.user_id := by
  unfold userUpsert hasUser
  split
  · next hany =>
      obtain ⟨x, hx, hbeq⟩ := List.any_eq_true.mp hany
      refine ⟨(if x.user_id == u.user_id then { x with level := u.level } else x),
        List.mem_map_of_mem _ hx, ?_⟩
      rw [userUpsert_user_id_map]
      exact beq_iff_eq.mp hbeq
  · exact ⟨u, List.mem_append_right _ (List.mem_singleton.mpr rfl), rfl⟩

theorem foldl_userUpsert_has :
    ∀ (l : List LogRow) (db : DB) (r : LogRow), r ∈ l →
      hasUser (l.foldl (fun d x => userUpsert d (userRowOf x)) db) r.userId := by
  intro l
  induction l with
  | nil => intro db r h; cases h
  | cons a t ih =>
    intro db r h
    rw [List.foldl_cons]
    rcases List.mem_cons.mp h with heq | hin
    · subst heq
      have h1 : hasUser (userUpsert db (userRowOf r)) r.userId :=
        userUpsert_has db (userRowOf r)
      have h2 := foldl_keysMono (fun d x => userUpsert d (userRowOf x))
        (fun d a => userUpsert_keysMono d (userRowOf a)) t (userUpsert db (userRowOf r))
      exact h2.2.2.2 _ h1
    · exact ih _ r hin

/-- After a log file is processed, every filtered line's derived
start_time and user key are present. -/
theorem process_log_file_cover (db : DB) (rows : List LogRow) :
    ∀ r ∈ rows.filter isNextSong,
      hasTime (process_log_file db rows) r.ts ∧
        hasUser (process_log_file db rows) r.userId := by
  intro r hr
  constructor
  · have hcand : deriveTime r.ts ∈ timeCandidates rows :=
      List.mem_map_of_mem (fun x => deriveTime x.ts) hr
    obtain ⟨tr, htr, htre⟩ := foldl_timeInsert_has (timeCandidates rows) db
      (deriveTime r.ts) hcand
    have htime : (process_log_file db rows).time
        = ((timeCandidates rows).foldl timeInsert db).time := by
      rw [process_log_file_eq]
      have h2 : ∀ d (a : LogRow), (userUpsert d (userRowOf a)).time = d.time :=
        fun d a => userUpsert_time d (userRowOf a)
      rw [foldl_preserve factStep DB.time factStep_time]
      rw [foldl_preserve _ DB.time h2]
    exact ⟨tr, by rw [htime]; exact htr, htre⟩
  · have h1 := foldl_userUpsert_has (rows.filter isNextSong)
      ((timeCandidates rows).foldl timeInsert db) r hr
    have husers : (process_log_file db rows).users
        = ((rows.filter isNextSong).foldl (fun d x => userUpsert d (userRowOf x))
            ((timeCandidates rows).foldl timeInsert db)).users := by
      rw [process_log_file_eq]
      exact foldl_preserve factStep DB.users factStep_users _ _
    obtain ⟨x, hx, he⟩ := h1
    exact ⟨x, by rw [husers]; exact hx, he⟩

/-- After the first log-tree run, every filtered line of every log file
has its derived start_time and its user key present. -/
theorem runFiles_log_cover :
    ∀ (lf : List (Option (List LogRow))) (db db' : DB),
      runFiles process_log_fileE db lf = .ok db' →
      ∀ file ∈ lf, ∀ rows', file = some rows' →
        ∀ r ∈ rows'.filter isNextSong, hasTime db' r.ts ∧ hasUser db' r.userId := by
  intro lf
  induction lf with
  | nil => intro db db' _ file hf; cases hf
  | cons f fs ih =>
    intro db db' h file hfile rows' heq r hr
    cases hf : process_log_fileE db f with
    | ok d1 =>
      rw [runFiles_cons_ok fs hf] at h
      rcases List.mem_cons.mp hfile with hfe | hin
      · subst hfe
        subst heq
        have hd1 : d1 = process_log_file db rows' := (Except.ok.inj hf).symm
        subst hd1
        have hhas := process_log_file_cover db rows' r hr
        have hmono := runFiles_rel process_log_fileE keysMono keysMono_refl
          (fun _ _ _ hab hbc => keysMono_trans hab hbc)
          (fun s g s' hg => process_log_fileE_keysMono s s' g hg) fs _ db' h
        exact ⟨hmono.2.2.1 _ hhas.1, hmono.2.2.2 _ hhas.2⟩
      · exact ih d1 db' h file hin rows' heq r hr
    | error e =>
      rw [runFiles_cons_err fs hf] at h
      cases h

/-- A song insert whose key is already present is a no-op. -/
theorem songInsert_noop (db : DB) (s : SongRow) (h : hasSong db s.song_id) :
    songInsert db s = db := by
  obtain ⟨x, hx, he⟩ := h
  unfold songInsert
  have hany : (db.songs.any fun y => y.song_id == s.song_id) = true :=
    List.any_eq_true.mpr ⟨x, hx, beq_iff_eq.mpr he⟩
  rw [hany]
  rfl

/-- An artist insert whose key is already present is a no-op. -/
theorem artistInsert_noop (db : DB) (a : ArtistRow) (h : hasArtist db a.artist_id) :
    artistInsert db a = db := by
  obtain ⟨x, hx, he⟩ := h
  unfold artistInsert
  have hany : (db.artists.any fun y => y.artist_id == a.artist_id) = true :=
    List.any_eq_true.mpr ⟨x, hx, beq_iff_eq.mpr he⟩
  rw [hany]
  rfl

/-- A time insert whose key is already present is a no-op. -/
theorem timeInsert_noop (db : DB) (t : TimeRow) (h : hasTime db t.start_time) :
    timeInsert db t = db := by
  obtain ⟨x, hx, he⟩ := h
  unfold timeInsert
  have hany : (db.time.any fun y => y.start_time == t.start_time) = true :=
    List.any_eq_true.mpr ⟨x, hx, beq_iff_eq.mpr he⟩
  rw [hany]
  rfl

/-- A user upsert whose key is already present keeps the row count: it
updates the level in place. -/
theorem userUpsert_len (db : DB) (u : UserRow) (h : hasUser db u.user_id) :
    (userUpsert db u).users.length = db.users.length := by
  obtain ⟨x, hx, he⟩ := h
  unfold userUpsert
  have hany : (db.users.any fun y => y.user_id == u.user_id) = true :=
    List.any_eq_true.mpr ⟨x, hx, beq_iff_eq.mpr he⟩
  rw [hany]
  simp

theorem dimsInv_refl (base : DB) : dimsInv base base :=
  ⟨rfl, rfl, rfl, rfl, fun _ h => h⟩

theorem hasTime_of_eq {base db : DB} (he : db.time = base.time) {k : Int}
    (h : hasTime base k) : hasTime db k := by
  obtain ⟨x, hx, hxe⟩ := h
  exact ⟨x, by rw [he]; exact hx, hxe⟩

theorem hasUser_of_eq_len {base db : DB} (hk : ∀ k, hasUser base k → hasUser db k)
    {k : String} (h : hasUser base k) : hasUser db k := hk k h

theorem foldl_timeInsert_noop :
    ∀ (l : List TimeRow) (db : DB), (∀ t ∈ l, hasTime db t.start_time) →
      l.foldl timeInsert db = db := by
  intro l
  induction l with
  | nil => intro db _; rfl
  | cons a t ih =>
    intro db h
    rw [List.foldl_cons, timeInsert_noop db a (h a (List.mem_cons_self a t))]
    exact ih db (fun x hx => h x (List.mem_cons_of_mem a hx))

theorem userUpsert_dims (base db : DB) (u : UserRow) (hinv : dimsInv base db)
    (hu : hasUser base u.user_id) : dimsInv base (userUpsert db u) := by
  obtain ⟨hs, ha, ht, hl, hk⟩ := hinv
  refine ⟨?_, ?_, ?_, ?_, ?_⟩
  · rw [userUpsert_songs]; exact hs
  · rw [userUpsert_artists]; exact ha
  · rw [userUpsert_time]; exact ht
  · rw [userUpsert_len db u (hk _ hu)]; exact hl
  · intro k h
    exact (userUpsert_keysMono db u).2.2.2 k (hk k h)

theorem foldl_userUpsert_dims :
    ∀ (l : List LogRow) (base db : DB), dimsInv base db →
      (∀ r ∈ l, hasUser base r.userId) →
      dimsInv base (l.foldl (fun d x => userUpsert d (userRowOf x)) db) := by
  intro l
  induction l with
  | nil => intro base db hinv _; exact hinv
  | cons a t ih =>
    intro base db hinv h
    rw [List.foldl_cons]
    refine ih base (userUpsert db (userRowOf a)) ?_
      (fun x hx => h x (List.mem_cons_of_mem a hx))
    exact userUpsert_dims base db (userRowOf a) hinv (h a (List.mem_cons_self a t))

theorem foldl_factStep_dims (base : DB) (l : List LogRow) (db : DB)
    (hinv : dimsInv base db) : dimsInv base (l.foldl factStep db) := by
  obtain ⟨hs, ha, ht, hl, hk⟩ := hinv
  refine ⟨?_, ?_, ?_, ?_, ?_⟩
  · rw [foldl_preserve factStep DB.songs factStep_songs]; exact hs
  · rw [foldl_preserve factStep DB.artists factStep_artists]; exact ha
  · rw [foldl_preserve factStep DB.time factStep_time]; exact ht
  · rw [foldl_preserve factStep DB.users factStep_users]; exact hl
  · intro k h
    exact (foldl_keysMono factStep factStep_keysMono l db).2.2.2 k (hk k h)

/-- Re-processing a log file whose derived keys are all present leaves
the dimension tables invariant. -/
theorem process_log_file_dims (base db : DB) (rows : List LogRow)
    (hinv : dimsInv base db)
    (hcov : ∀ r ∈ rows.filter isNextSong, hasTime base r.ts ∧ hasUser base r.userId) :
    dimsInv base (process_log_file db rows) := by
  rw [process_log_file_eq]
  have htfold : (timeCandidates rows).foldl timeInsert db = db := by
    apply foldl_timeInsert_noop
    intro t ht
    obtain ⟨r, hr, heq⟩ := List.mem_map.mp ht
    subst heq
    exact hasTime_of_eq hinv.2.2.1 (hcov r hr).1
  rw [htfold]
  have h2 := foldl_userUpsert_dims (rows.filter isNextSong) base db hinv
    (fun r hr => (hcov r hr).2)
  exact foldl_factStep_dims base _ _ h2

/-- Re-processing a metadata file whose keys are already present
succeeds and leaves the store untouched. -/
theorem process_song_file_dims (base db : DB) (r : SongFileRow)
    (rest : List SongFileRow) (hinv : dimsInv base db)
    (hs : hasSong base r.song_id) (ha : hasArtist base r.artist_id) :
    process_song_file db (some (r :: rest)) = .ok db := by
  have h1 : songInsert db ⟨r.song_id, r.title, r.artist_id, r.year, r.duration⟩ = db := by
    apply songInsert_noop
    obtain ⟨x, hx, he⟩ := hs
    exact ⟨x, by rw [hinv.1]; exact hx, he⟩
  have h2 : artistInsert db ⟨r.artist_id, r.artist_name, r.artist_location,
      r.artist_latitude, r.artist_longitude⟩ = db := by
    apply artistInsert_noop
    obtain ⟨x, hx, he⟩ := ha
    exact ⟨x, by rw [hinv.2.1]; exact hx, he⟩
  show Except.ok (artistInsert (songInsert db
    ⟨r.song_id, r.title, r.artist_id, r.year, r.duration⟩)
    ⟨r.artist_id, r.artist_name, r.artist_location, r.artist_latitude,
      r.artist_longitude⟩) = .ok db
  rw [h1, h2]

theorem song_shape {db db' : DB} {file : Option (List SongFileRow)}
    (h : process_song_file db file = .ok db') :
    ∃ r rest, file = some (r :: rest) := by
  match file with
  | none => cases h
  | some [] => cases h
  | some (r :: rest) => exact ⟨r, rest, rfl⟩

theorem log_shape {db db' : DB} {file : Option (List LogRow)}
    (h : process_log_fileE db file = .ok db') : ∃ rows', file = some rows' := by
  match file with
  | none => cases h
  | some rows => exact ⟨rows, rfl⟩

/-- A second pass over the song tree is a chain of no-ops on the
dimension tables when every file's keys are already present. -/
theorem run2_song (db1 : DB) :
    ∀ (sf : List (Option (List SongFileRow))) (db : DB), dimsInv db1 db →
      (∀ file ∈ sf, ∀ r rest, file = some (r :: rest) →
        hasSong db1 r.song_id ∧ hasArtist db1 r.artist_id) →
      (∀ file ∈ sf, ∃ r rest, file = some (r :: rest)) →
      ∃ db'', runFiles process_song_file db sf = .ok db'' ∧ dimsInv db1 db'' := by
  intro sf
  induction sf with
  | nil => intro db hinv _ _; exact ⟨db, rfl, hinv⟩
  | cons f fs ih =>
    intro db hinv hcov hshape
    obtain ⟨r, rest, heq⟩ := hshape f (List.mem_cons_self f fs)
    subst heq
    have hkeys := hcov (some (r :: rest)) (List.mem_cons_self _ fs) r rest rfl
    have hstep : process_song_file db (some (r :: rest)) = .ok db :=
      process_song_file_dims db1 db r rest hinv hkeys.1 hkeys.2
    rw [runFiles_cons_ok fs hstep]
    exact ih db hinv (fun g hg => hcov g (List.mem_cons_of_mem _ hg))
      (fun g hg => hshape g (List.mem_cons_of_mem _ hg))

/-- A second pass over the log tree keeps the dimension tables
invariant when every derived key is already present. -/
theorem run2_log (db1 : DB) :
    ∀ (lf : List (Option (List LogRow))) (db : DB), dimsInv db1 db →
      (∀ file ∈ lf, ∀ rows', file = some rows' →
        ∀ r ∈ rows'.filter isNextSong, hasTime db1 r.ts ∧ hasUser db1 r.userId) →
      (∀ file ∈ lf, ∃ rows', file = some rows') →
      ∃ db'', runFiles process_log_fileE db lf = .ok db'' ∧ dimsInv db1 db'' := by
  intro lf
  induction lf with
  | nil => intro db hinv _ _; exact ⟨db, rfl, hinv⟩
  | cons f fs ih =>
    intro db hinv hcov hshape
    obtain ⟨rows', heq⟩ := hshape f (List.mem_cons_self f fs)
    subst heq
    have hstep : process_log_fileE db (some rows') = .ok (process_log_file db rows') := rfl
    rw [runFiles_cons_ok fs hstep]
    have hinv' : dimsInv db1 (process_log_file db rows') :=
      process_log_file_dims db1 db rows' hinv
        (hcov (some rows') (List.mem_cons_self _ fs) rows' rfl)
    exact ih (process_log_file db rows') hinv'
      (fun g hg => hcov g (List.mem_cons_of_mem _ hg))
      (fun g hg => hshape g (List.mem_cons_of_mem _ hg))

theorem pipeline_ok_song (sf : List (Option (List SongFileRow)))
    (lf : List (Option (List LogRow))) (db dbA : DB)
    (hA : runFiles process_song_file db sf = .ok dbA) :
    pipeline sf lf db = runFiles process_log_fileE dbA lf := by
  conv_lhs => unfold pipeline
  rw [hA]

theorem pipeline_err_song (sf : List (Option (List SongFileRow)))
    (lf : List (Option (List LogRow))) (db : DB) (e : EtlError)
    (hA : runFiles process_song_file db sf = .error e) :
    pipeline sf lf db = .error e := by
  conv_lhs => unfold pipeline
  rw [hA]

/-- C3: a second run of the whole two-phase pipeline over identical,
unchanged input succeeds and leaves every dimension table unchanged in
row count — songs, artists and time by the conflict-skip policy (they
are in fact unchanged as lists), and users because each upsert hits an
existing key and updates only the subscription level in place. -/
theorem claim_C3 (sf : List (Option (List SongFileRow)))
    (lf : List (Option (List LogRow))) (db0 db1 : DB)
    (h : pipeline sf lf db0 = .ok db1) :
    ∃ db2, pipeline sf lf db1 = .ok db2 ∧
      db2.songs.length = db1.songs.length ∧
      db2.artists.length = db1.artists.length ∧
      db2.time.length = db1.time.length ∧
      db2.users.length = db1.users.length := by
  cases hA : runFiles process_song_file db0 sf with
  | error e =>
    rw [pipeline_err_song sf lf db0 e hA] at h
    cases h
  | ok dbA =>
    rw [pipeline_ok_song sf lf db0 dbA hA] at h
    have hkm := runFiles_rel process_log_fileE keysMono keysMono_refl
      (fun _ _ _ hab hbc => keysMono_trans hab hbc)
      (fun s g s' hg => process_log_fileE_keysMono s s' g hg) lf dbA db1 h
    have hscov : ∀ file ∈ sf, ∀ r rest, file = some (r :: rest) →
        hasSong db1 r.song_id ∧ hasArtist db1 r.artist_id := by
      intro file hfile r rest heq
      have hc := runFiles_song_cover sf db0 dbA hA file hfile r rest heq
      exact ⟨hkm.1 _ hc.1, hkm.2.1 _ hc.2⟩
    have hlcov := runFiles_log_cover lf dbA db1 h
    have hsshape := runFiles_fileProp process_song_file
      (fun f => ∃ r rest, f = some (r :: rest))
      (fun _ _ _ hf => song_shape hf) sf db0 dbA hA
    have hlshape := runFiles_fileProp process_log_fileE
      (fun f => ∃ rows', f = some rows')
      (fun _ _ _ hf => log_shape hf) lf dbA db1 h
    obtain ⟨db3, hrun3, hinv3⟩ :=
      run2_song db1 sf db1 (dimsInv_refl db1) hscov hsshape
    obtain ⟨db2, hrun4, hinv4⟩ := run2_log db1 lf db3 hinv3 hlcov hlshape
    refine ⟨db2, ?_, ?_, ?_, ?_, ?_⟩
    · rw [pipeline_ok_song sf lf db1 db3 hrun3]
      exact hrun4
    · rw [hinv4.1]
    · rw [hinv4.2.1]
    · rw [hinv4.2.2.1]
    · exact hinv4.2.2.2.1

/-- Witness for C3 on a one-file song tree and a one-line log tree. -/
theorem claim_C3_witness :
    ∃ db2, pipeline [some [⟨"S1", "T", "A1", 2000, 200, "X", "L", 1, 2⟩]]
        [some [⟨"NextSong", 1000, "7", "A", "B", "F", "free", "T", "X", 200, 100,
          "LA", "UA"⟩]]
        ⟨[⟨"S1", "T", "A1", 2000, 200⟩], [⟨"A1", "X", "L", 1, 2⟩],
          [⟨1000, 0, 1, 1, 1, 1970, 3⟩], [⟨"7", "A", "B", "F", "free"⟩],
          [⟨1000, "7", "free", some "S1", some "A1", 100, "LA", "UA"⟩]⟩ = .ok db2 ∧
      db2.songs.length
          = (⟨[⟨"S1", "T", "A1", 2000, 200⟩], [⟨"A1", "X", "L", 1, 2⟩],
              [⟨1000, 0, 1, 1, 1, 1970, 3⟩], [⟨"7", "A", "B", "F", "free"⟩],
              [⟨1000, "7", "free", some "S1", some "A1", 100, "LA", "UA"⟩]⟩ : DB).songs.length ∧
      db2.artists.length
          = (⟨[⟨"S1", "T", "A1", 2000, 200⟩], [⟨"A1", "X", "L", 1, 2⟩],
              [⟨1000, 0, 1, 1, 1, 1970, 3⟩], [⟨"7", "A", "B", "F", "free"⟩],
              [⟨1000, "7", "free", some "S1", some "A1", 100, "LA", "UA"⟩]⟩ : DB).artists.length ∧
      db2.time.length
          = (⟨[⟨"S1", "T", "A1", 2000, 200⟩], [⟨"A1", "X", "L", 1, 2⟩],
              [⟨1000, 0, 1, 1, 1, 1970, 3⟩], [⟨"7", "A", "B", "F", "free"⟩],
              [⟨1000, "7", "free", some "S1", some "A1", 100, "LA", "UA"⟩]⟩ : DB).time.length ∧
      db2.users.length
          = (⟨[⟨"S1", "T", "A1", 2000, 200⟩], [⟨"A1", "X", "L", 1, 2⟩],
              [⟨1000, 0, 1, 1, 1, 1970, 3⟩], [⟨"7", "A", "B", "F", "free"⟩],
              [⟨1000, "7", "free", some "S1", some "A1", 100, "LA", "UA"⟩]⟩ : DB).users.length :=
  claim_C3 [some [⟨"S1", "T", "A1", 2000, 200, "X", "L", 1, 2⟩]]
    [some [⟨"NextSong", 1000, "7", "A", "B", "F", "free", "T", "X", 200, 100,
      "LA", "UA"⟩]]
    DB.empty
    ⟨[⟨"S1", "T", "A1", 2000, 200⟩], [⟨"A1", "X", "L", 1, 2⟩],
      [⟨1000, 0, 1, 1, 1, 1970, 3⟩], [⟨"7", "A", "B", "F", "free"⟩],
      [⟨1000, "7", "free", some "S1", some "A1", 100, "LA", "UA"⟩]⟩ rfl

end Sparkify
